import Mathlib

/-!
Verification development for the send-money-agent repository.

Shallow embedding conventions:
* Python floats (amounts, limits) are modelled as `ℚ`; every constant used by
  the program (0.5, 1500.0, 3000.0, 18000.0) is exactly representable.
* Python `datetime` values are modelled as integer seconds since the Unix
  epoch (`ℤ`); `timedelta(days=n)` is `n * 86400` seconds.  `datetime`
  comparison coincides with integer comparison of the epoch values, and
  `datetime.isoformat` / `datetime.fromisoformat` are modelled by a proleptic
  Gregorian calendar codec (`isoformat` / `fromiso` below) at second
  granularity.
* Python dicts (session state, tool results) are association lists
  `List (String × SVal)` in insertion order; `dict[k] = v` is `dictSet`.
* Fallible constructors (pydantic validation) return `Except String α`,
  carrying the first error message in pydantic field-declaration order, which
  is what `e.errors()[0]["msg"]` extracts in the tools.
-/

/- ---------------------------------------------------------------- -/
/- Character and string helpers                                      -/
/- ---------------------------------------------------------------- -/

/-- Lower-casing as `str.lower()` does, restricted to the alphabets that occur
in this program: ASCII letters plus the Latin-1 uppercase range (which covers
the accented letters of the supported country names). -/
def pyLowerC (c : Char) : Char :=
  if 65 ≤ c.toNat ∧ c.toNat ≤ 90 then Char.ofNat (c.toNat + 32)
  else if 192 ≤ c.toNat ∧ c.toNat ≤ 222 ∧ c.toNat ≠ 215 then Char.ofNat (c.toNat + 32)
  else c

/-- Upper-casing as `str.upper()` does, same restricted alphabet. -/
def pyUpperC (c : Char) : Char :=
  if 97 ≤ c.toNat ∧ c.toNat ≤ 122 then Char.ofNat (c.toNat - 32)
  else if 224 ≤ c.toNat ∧ c.toNat ≤ 254 ∧ c.toNat ≠ 247 then Char.ofNat (c.toNat - 32)
  else c

def pyLowerS (s : String) : String := ⟨s.data.map pyLowerC⟩

def pyUpperS (s : String) : String := ⟨s.data.map pyUpperC⟩

/-- Does the pattern occur at the head of the list? -/
def seqAtHead : List Char → List Char → Bool
  | [], _ => true
  | _ :: _, [] => false
  | p :: ps, h :: hs => p == h && seqAtHead ps hs

/-- Does the pattern occur anywhere in the haystack? -/
def containsSeq (hay pat : List Char) : Bool :=
  match hay with
  | [] => pat.isEmpty
  | _ :: rest => seqAtHead pat hay || containsSeq rest pat

/-- `strMentions s pat` — `pat in s` for Python strings. -/
def strMentions (s pat : String) : Bool := containsSeq s.data pat.data

def digitCh (d : Nat) : Char := Char.ofNat (48 + d)

def chDigit (c : Char) : Option Nat :=
  if 48 ≤ c.toNat ∧ c.toNat ≤ 57 then some (c.toNat - 48) else none

/-- Little-endian decimal digits of `n` (empty for zero), structurally
recursive on a fuel argument; `fuel ≥ n` always suffices. -/
def natDigitsF : Nat → Nat → List Nat
  | 0, _ => []
  | _ + 1, 0 => []
  | f + 1, n + 1 => ((n + 1) % 10) :: natDigitsF f ((n + 1) / 10)

/-- Decimal rendering of a natural number, as `str` does. -/
def natStr (n : Nat) : List Char :=
  if n = 0 then ['0'] else ((natDigitsF n n).reverse).map digitCh

/-- Parse a nonempty run of decimal digits, as `int()` does on a digit string. -/
def parseNatAux : Nat → List Char → Option Nat
  | acc, [] => some acc
  | acc, c :: cs =>
    match chDigit c with
    | none => none
    | some d => parseNatAux (10 * acc + d) cs

def parseNat : List Char → Option Nat
  | [] => none
  | l => parseNatAux 0 l

/-- Two decimal digits, zero-padded (`%02d`); only used for values < 100. -/
def pad2 (n : Nat) : List Char := [digitCh (n / 10 % 10), digitCh (n % 10)]

/-- Four decimal digits, zero-padded (`%04d`); only used for values < 10000. -/
def pad4 (n : Nat) : List Char :=
  [digitCh (n / 1000 % 10), digitCh (n / 100 % 10), digitCh (n / 10 % 10), digitCh (n % 10)]

/-- `f"{x:.2f}"` on the exact rational value: the value rounded to a whole
number of cents and rendered with two decimals.  (Python rounds the
underlying binary float half-to-even; on every value this program formats the
rounding is exact, so the tie-breaking rule is immaterial.) -/
def fmt2 (q : ℚ) : String :=
  let c : ℤ := round (q * 100)
  let sign : List Char := if c < 0 then ['-'] else []
  let a : Nat := c.natAbs
  ⟨sign ++ natStr (a / 100) ++ '.' :: pad2 (a % 100)⟩

/- ---------------------------------------------------------------- -/
/- Proleptic Gregorian calendar (model of Python `datetime` ↔ days)  -/
/- ---------------------------------------------------------------- -/

/-- Days since 1970-01-01 to civil date (y, m, d), proleptic Gregorian —
the arithmetic underlying `datetime.fromtimestamp`/`isoformat`. -/
def civilFromDays (z0 : Int) : Int × Int × Int :=
  let z := z0 + 719468
  let era : Int := z / 146097
  let doe : Int := z - era * 146097
  let yoe : Int := (doe - doe / 1460 + doe / 36524 - doe / 146096) / 365
  let y : Int := yoe + era * 400
  let doy : Int := doe - (365 * yoe + yoe / 4 - yoe / 100)
  let mp : Int := (5 * doy + 2) / 153
  let d : Int := doy - (153 * mp + 2) / 5 + 1
  let m : Int := mp + (if mp < 10 then 3 else -9)
  (y + (if m ≤ 2 then 1 else 0), m, d)

/-- Civil date (y, m, d) to days since 1970-01-01, proleptic Gregorian —
the arithmetic underlying `datetime(...).timestamp`/`fromisoformat`. -/
def daysFromCivil (y0 m d : Int) : Int :=
  let y := y0 - (if m ≤ 2 then 1 else 0)
  let era : Int := y / 400
  let yoe : Int := y - era * 400
  let mp : Int := m + (if 2 < m then -3 else 9)
  let doy : Int := (153 * mp + 2) / 5 + d - 1
  let doe : Int := yoe * 365 + yoe / 4 - yoe / 100 + doy
  era * 146097 + doe - 719468

def gZ (x : Int) : Int := x - x / 1460 + x / 36524 - x / 146096

def yoeZ (x : Int) : Int := gZ x / 365

def startZ (y : Int) : Int := 365 * y + y / 4 - y / 100

/-- `datetime.isoformat()` for a whole-second datetime:
`YYYY-MM-DDTHH:MM:SS`. -/
def isoformat (t : Int) : String :=
  let days := t / 86400
  let sod : Nat := (t % 86400).toNat
  let c := civilFromDays days
  ⟨pad4 c.1.toNat ++ '-' :: (pad2 c.2.1.toNat ++ '-' :: (pad2 c.2.2.toNat ++
    'T' :: (pad2 (sod / 3600) ++ ':' :: (pad2 (sod % 3600 / 60) ++ ':' :: pad2 (sod % 60)))))⟩

def parse2 (a b : Char) : Option Nat := do
  let x ← chDigit a
  let y ← chDigit b
  pure (10 * x + y)

def parse4 (a b c d : Char) : Option Nat := do
  let x ← chDigit a
  let y ← chDigit b
  let z ← chDigit c
  let w ← chDigit d
  pure (1000 * x + 100 * y + 10 * z + w)

/-- `datetime.fromisoformat` restricted to the canonical seconds-precision
shape that this program's writer emits. -/
def fromiso (s : String) : Option Int :=
  match s.data with
  | [y1, y2, y3, y4, '-', m1, m2, '-', d1, d2, 'T', h1, h2, ':', i1, i2, ':', s1, s2] => do
    let y ← parse4 y1 y2 y3 y4
    let mo ← parse2 m1 m2
    let d ← parse2 d1 d2
    let h ← parse2 h1 h2
    let mi ← parse2 i1 i2
    let sec ← parse2 s1 s2
    pure (daysFromCivil y mo d * 86400 + h * 3600 + mi * 60 + sec)
  | _ => none

/-- Earliest representable Python datetime (0001-01-01T00:00:00), in epoch
seconds. -/
def pyTimeMin : Int := -62135596800

/-- Latest whole-second Python datetime (9999-12-31T23:59:59), in epoch
seconds. -/
def pyTimeMax : Int := 253402300799

/- ---------------------------------------------------------------- -/
/- Decimal codec (model of `str(float)` / `float(str)`)              -/
/- ---------------------------------------------------------------- -/

/-- Smallest number of decimal fraction digits that represents `q` exactly,
searched up to 1100 (every IEEE double has a finite decimal expansion of at
most 1074 fraction digits, so on any value a Python float can hold the search
succeeds). -/
def decSearch (q : ℚ) : Option Nat :=
  (List.range 1101).find? fun k => (q * 10 ^ k).den == 1

/-- Fraction digits of `m`, zero-padded on the left to width `k`. -/
def padZ (k m : Nat) : List Char :=
  List.replicate (k - (natStr m).length) '0' ++ natStr m

/-- `str(x)` for a float value `x`: minimal-length decimal form, always with
at least one fraction digit.  (Python switches to scientific form for very
large/small magnitudes; the values are parsed back identically either way,
and this model keeps the plain decimal shape.) -/
def decRepr (q : ℚ) : Option (List Char) :=
  match decSearch q with
  | none => none
  | some k =>
    let n := (q * 10 ^ k).num
    let sign : List Char := if n < 0 then ['-'] else []
    let a := n.natAbs
    if k = 0 then some (sign ++ natStr a ++ ['.', '0'])
    else some (sign ++ natStr (a / 10 ^ k) ++ '.' :: padZ k (a % 10 ^ k))

/-- `float(s)` on a plain decimal string. -/
def decParseAbs (l : List Char) : Option ℚ :=
  let ip := l.takeWhile (fun c => c != '.')
  match l.dropWhile (fun c => c != '.') with
  | [] => (parseNat ip).map fun a => (a : ℚ)
  | _ :: frac => do
    let a ← parseNat ip
    let b ← if frac.isEmpty then some 0 else parseNat frac
    pure ((a : ℚ) + (b : ℚ) / 10 ^ frac.length)

def decParse (l : List Char) : Option ℚ :=
  if l.head? = some '-' then (decParseAbs l.tail).map Neg.neg
  else decParseAbs l

/- ---------------------------------------------------------------- -/
/- models.py                                                         -/
/- ---------------------------------------------------------------- -/

def SUPPORTED_COUNTRIES : List String :=
  ["México", "Guatemala", "Honduras", "El Salvador", "República Dominicana", "Colombia"]

def PAYMENT_METHODS : List String := ["credit_card", "debit_card", "bank_transfer"]

def DELIVERY_METHODS : List String := ["digital_wallet", "bank_account"]

def MIN_AMOUNT : ℚ := 0.5

def DAILY_LIMIT : ℚ := 1500.0

def MONTHLY_LIMIT : ℚ := 3000.0

def SEMESTER_LIMIT : ℚ := 18000.0

structure Beneficiary where
  firstname : String
  lastname : String
  deriving DecidableEq, Repr

def Beneficiary.full_name (b : Beneficiary) : String := b.firstname ++ " " ++ b.lastname

/-- `Beneficiary(...)` construction: both names have `min_length=1`; the error
message is pydantic's first error message. -/
def mkBeneficiary (firstname lastname : String) : Except String Beneficiary :=
  if firstname.isEmpty then .error "String should have at least 1 character"
  else if lastname.isEmpty then .error "String should have at least 1 character"
  else .ok ⟨firstname, lastname⟩

structure Transaction where
  beneficiary : Beneficiary
  country : String
  amount : ℚ
  payment_method : String
  delivery_method : String
  timestamp : Int
  confirmation_code : Option String := none
  deriving DecidableEq, Repr

/-- `validate_country` field validator (pydantic wraps the raised `ValueError`
message as "Value error, ..."). -/
def validateCountry (v : String) : Except String String :=
  if SUPPORTED_COUNTRIES.contains v then .ok v
  else .error ("Value error, Country must be one of: " ++
    String.intercalate ", " SUPPORTED_COUNTRIES)

/-- Amount pipeline: the `Field(..., gt=0)` constraint runs first, then the
`validate_amount` field validator. -/
def validateAmountField (v : ℚ) : Except String ℚ :=
  if v ≤ 0 then .error "Input should be greater than 0"
  else if v < MIN_AMOUNT then .error "Value error, Amount must be at least $0.5 USD"
  else if v > DAILY_LIMIT then
    .error "Value error, Amount cannot exceed daily limit of $1500.0 USD"
  else .ok v

def validatePaymentMethod (v : String) : Except String String :=
  if PAYMENT_METHODS.contains v then .ok v
  else .error ("Value error, Payment method must be one of: " ++
    String.intercalate ", " PAYMENT_METHODS)

def validateDeliveryMethod (v : String) : Except String String :=
  if DELIVERY_METHODS.contains v then .ok v
  else .error ("Value error, Delivery method must be one of: " ++
    String.intercalate ", " DELIVERY_METHODS)

/-- `Transaction(...)` construction: pydantic validates fields in declaration
order (beneficiary, country, amount, payment_method, delivery_method,
timestamp) and the callers read `errors()[0]`, the first failure in that
order. -/
def mkTransaction (b : Beneficiary) (country : String) (amount : ℚ)
    (payment_method delivery_method : String) (timestamp : Int) :
    Except String Transaction := do
  let c ← validateCountry country
  let a ← validateAmountField amount
  let p ← validatePaymentMethod payment_method
  let d ← validateDeliveryMethod delivery_method
  pure { beneficiary := b, country := c, amount := a, payment_method := p,
         delivery_method := d, timestamp := timestamp }

structure TransferLimits where
  daily_limit : ℚ := DAILY_LIMIT
  monthly_limit : ℚ := MONTHLY_LIMIT
  semester_limit : ℚ := SEMESTER_LIMIT
  daily_used : ℚ := 0
  monthly_used : ℚ := 0
  semester_used : ℚ := 0
  deriving DecidableEq, Repr

def TransferLimits.daily_remaining (l : TransferLimits) : ℚ := l.daily_limit - l.daily_used

def TransferLimits.monthly_remaining (l : TransferLimits) : ℚ := l.monthly_limit - l.monthly_used

def TransferLimits.semester_remaining (l : TransferLimits) : ℚ :=
  l.semester_limit - l.semester_used

/-- `TransferLimits.can_transfer`. -/
def TransferLimits.can_transfer (l : TransferLimits) (amount : ℚ) : Bool × Option String :=
  if l.daily_remaining < amount then
    (false, some ("Transfer would exceed daily limit. Remaining: $" ++
      fmt2 l.daily_remaining ++ " USD"))
  else if l.monthly_remaining < amount then
    (false, some ("Transfer would exceed monthly limit. Remaining: $" ++
      fmt2 l.monthly_remaining ++ " USD"))
  else if l.semester_remaining < amount then
    (false, some ("Transfer would exceed semester limit. Remaining: $" ++
      fmt2 l.semester_remaining ++ " USD"))
  else (true, none)

/-- `TransferLimits.add_transfer` (returns the updated snapshot). -/
def TransferLimits.add_transfer (l : TransferLimits) (amount : ℚ) : TransferLimits :=
  { l with daily_used := l.daily_used + amount,
           monthly_used := l.monthly_used + amount,
           semester_used := l.semester_used + amount }

/- ---------------------------------------------------------------- -/
/- limits.py                                                         -/
/- ---------------------------------------------------------------- -/

/-- `calculate_period_usage`. -/
def calculate_period_usage (transactions : List Transaction) (current_time : Int)
    (period : String) : Except String ℚ :=
  match (if period = "daily" then some (current_time - 86400)
         else if period = "monthly" then some (current_time - 30 * 86400)
         else if period = "semester" then some (current_time - 180 * 86400)
         else none) with
  | none => .error ("Invalid period: " ++ period)
  | some cutoff =>
    .ok (((transactions.filter fun txn => cutoff ≤ txn.timestamp).map
      Transaction.amount).sum)

/-- `LimitsTracker.get_current_limits` (the tracker is just the pair of its
constructor arguments, so both methods take them directly). -/
def get_current_limits (transactions : List Transaction) (current_time : Int) :
    Except String TransferLimits := do
  let daily_used ← calculate_period_usage transactions current_time "daily"
  let monthly_used ← calculate_period_usage transactions current_time "monthly"
  let semester_used ← calculate_period_usage transactions current_time "semester"
  pure { daily_used := daily_used, monthly_used := monthly_used,
         semester_used := semester_used }

/-- `LimitsTracker.check_limits`. -/
def check_limits (transactions : List Transaction) (current_time : Int) (amount : ℚ) :
    Except String (Bool × Option String) := do
  let limits ← get_current_limits transactions current_time
  pure (limits.can_transfer amount)

/- ---------------------------------------------------------------- -/
/- history.py                                                        -/
/- ---------------------------------------------------------------- -/

structure TransactionHistoryRecord where
  phone_number : String
  beneficiary : Beneficiary
  country : String
  amount : ℚ
  payment_method : String
  delivery_method : String
  timestamp : Int
  confirmation_code : String
  deriving DecidableEq, Repr

/-- One data row of the CSV store, each field in its serialized string form
(the `row` dict seen by `csv.DictWriter` / `csv.DictReader`). -/
structure HistRow where
  phone_number : String
  beneficiary_firstname : String
  beneficiary_lastname : String
  country : String
  amount : String
  payment_method : String
  delivery_method : String
  timestamp : String
  confirmation_code : String
  deriving DecidableEq, Repr

/-- The CSV file, abstracted to its list of data rows (the fixed header line
is written once and skipped by `DictReader`). -/
abbrev HistStore := List HistRow

/-- `str(record.amount)`: Python always renders a float to a finite string;
the fuel-bounded search cannot fail on any value a float can hold, and the
out-of-fuel branch is unreachable for such values. -/
def floatStr (q : ℚ) : String :=
  match decRepr q with
  | some l => ⟨l⟩
  | none => ""

/-- The `row` dict built by `add_transaction`. -/
def rowOfRecord (r : TransactionHistoryRecord) : HistRow :=
  { phone_number := r.phone_number,
    beneficiary_firstname := r.beneficiary.firstname,
    beneficiary_lastname := r.beneficiary.lastname,
    country := r.country,
    amount := floatStr r.amount,
    payment_method := r.payment_method,
    delivery_method := r.delivery_method,
    timestamp := isoformat r.timestamp,
    confirmation_code := r.confirmation_code }

/-- `TransactionHistory.add_transaction`: appends one serialized row at the
end of the file (writing the header first if the file is new or empty). -/
def add_transaction (store : HistStore) (r : TransactionHistoryRecord) : HistStore :=
  store ++ [rowOfRecord r]

/-- Reconstruction of one record inside the `load_all` loop; `none` models an
exception (empty beneficiary name rejected by the `Beneficiary` model,
unparseable float, unparseable timestamp). -/
def recordOfRow (row : HistRow) : Option TransactionHistoryRecord := do
  let b ← match mkBeneficiary row.beneficiary_firstname row.beneficiary_lastname with
          | .ok b => some b
          | .error _ => none
  let amount ← decParse row.amount.data
  let ts ← fromiso row.timestamp
  pure { phone_number := row.phone_number, beneficiary := b, country := row.country,
         amount := amount, payment_method := row.payment_method,
         delivery_method := row.delivery_method, timestamp := ts,
         confirmation_code := row.confirmation_code }

/-- The `load_all` loop: rows with an empty `phone_number` are skipped
(`continue`); any exception aborts the whole load. -/
def loadAux : HistStore → Option (List TransactionHistoryRecord)
  | [] => some []
  | row :: rest =>
    if row.phone_number.isEmpty then loadAux rest
    else do
      let r ← recordOfRow row
      let rs ← loadAux rest
      pure (r :: rs)

/-- `TransactionHistory.load_all`: on any exception the whole call logs a
warning and returns the empty list. -/
def load_all (store : HistStore) : List TransactionHistoryRecord :=
  match loadAux store with
  | some l => l
  | none => []

/-- `TransactionHistory.get_user_transactions`: exact phone-number filter,
then `list.sort(key=timestamp, reverse=True)` — a stable sort placing more
recent timestamps first. -/
def get_user_transactions (store : HistStore) (phone_number : String) :
    List TransactionHistoryRecord :=
  let user_records := (load_all store).filter fun r => r.phone_number == phone_number
  user_records.mergeSort fun a b => decide (b.timestamp ≤ a.timestamp)

/-- Python truthiness of the optional name arguments (`None` and `""` are
both falsy). -/
def nameTruthy : Option String → Bool
  | none => false
  | some s => !s.isEmpty

/-- The accumulation loop of `find_beneficiary_history`. -/
def fbhLoop (txns : List TransactionHistoryRecord) (firstname : String)
    (lastname : Option String) : List TransactionHistoryRecord :=
  match txns with
  | [] => []
  | txn :: rest =>
    let firstname_match := pyLowerS txn.beneficiary.firstname == pyLowerS firstname
    let tail := fbhLoop rest firstname lastname
    if nameTruthy lastname then
      if firstname_match &&
          (pyLowerS txn.beneficiary.lastname == pyLowerS (lastname.getD "")) then
        txn :: tail
      else tail
    else
      if firstname_match then txn :: tail else tail

/-- `find_beneficiary_history`. -/
def find_beneficiary_history (store : HistStore) (phone_number : String)
    (firstname lastname : Option String) : List TransactionHistoryRecord :=
  let user_txns := get_user_transactions store phone_number
  if !nameTruthy firstname then []
  else fbhLoop user_txns (firstname.getD "") lastname

/- ---------------------------------------------------------------- -/
/- tools.py                                                          -/
/- ---------------------------------------------------------------- -/

/-- A Python value stored in a tool-result dict or in session state. -/
inductive SVal where
  | str (v : String)
  | num (v : ℚ)
  | bool (v : Bool)
  deriving DecidableEq, Repr

/-- A Python dict in insertion order (tool results, `tool_context.state`). -/
abbrev PyDict := List (String × SVal)

/-- `d[k] = v`: replace in place if the key exists, else append. -/
def dictSet (d : PyDict) (k : String) (v : SVal) : PyDict :=
  if d.any fun p => p.1 == k then
    d.map fun p => if p.1 == k then (k, v) else p
  else d ++ [(k, v)]

/-- `d.get(k)`. -/
def dictGet (d : PyDict) (k : String) : Option SVal :=
  List.lookup k d

/-- `set_country`: normalize case against the canonical list; store and echo
the canonical casing on success, no state write on failure. -/
def set_country (st : PyDict) (country : String) : PyDict × PyDict :=
  match SUPPORTED_COUNTRIES.find? (fun supported => pyLowerS supported == pyLowerS country) with
  | none =>
    ([("success", .bool false),
      ("error", .str ("Country \x27" ++ country ++ "\x27 is not supported. Supported countries: " ++
        String.intercalate ", " SUPPORTED_COUNTRIES))], st)
  | some normalized_country =>
    ([("success", .bool true),
      ("country", .str normalized_country),
      ("message", .str ("Country set to " ++ normalized_country))],
     dictSet st "country" (.str normalized_country))

/-- `set_amount`: minimum check, then a probe `Transaction` whose only purpose
is the pydantic max (daily-limit) validation — note the hard-coded country
literal is the mojibake string "MÃ©xico" exactly as the source file
has it (bytes C3 83 C2 A9), not the supported country "México". -/
def set_amount (st : PyDict) (amount : ℚ) (now : Int) : PyDict × PyDict :=
  if amount < MIN_AMOUNT then
    ([("success", .bool false),
      ("error", .str "Amount must be at least $0.5 USD")], st)
  else
    match mkBeneficiary "Test" "User" with
    | .error msg => ([("success", .bool false), ("error", .str msg)], st)
    | .ok b =>
      match mkTransaction b "MÃ©xico" amount "credit_card" "digital_wallet" now with
      | .error msg => ([("success", .bool false), ("error", .str msg)], st)
      | .ok _ =>
        ([("success", .bool true),
          ("amount", .num amount),
          ("message", .str ("Amount set to $" ++ fmt2 amount ++ " USD"))],
         dictSet st "amount" (.num amount))

/-- `transfer_money`: the confirmation token stands for the random
`secrets.token_hex(4)` output, passed in as a parameter; the history store is
threaded through to expose its (non-)mutation. -/
def transfer_money (st : PyDict) (hist : HistStore) (token : String)
    (beneficiary_firstname beneficiary_lastname country : String) (amount : ℚ)
    (payment_method delivery_method : String) (now : Int) :
    PyDict × PyDict × HistStore :=
  match mkBeneficiary beneficiary_firstname beneficiary_lastname with
  | .error msg => (([("success", .bool false), ("error", .str msg)]), st, hist)
  | .ok beneficiary =>
    match mkTransaction beneficiary country amount payment_method delivery_method now with
    | .error msg => (([("success", .bool false), ("error", .str msg)]), st, hist)
    | .ok _transaction =>
      let confirmation_code := "TXN-" ++ pyUpperS token
      let st := dictSet st "last_transfer_confirmation" (.str confirmation_code)
      let st := dictSet st "last_transfer_amount" (.num amount)
      let st := dictSet st "last_transfer_beneficiary" (.str beneficiary.full_name)
      ([("success", .bool true),
        ("confirmation_code", .str confirmation_code),
        ("amount", .num amount),
        ("beneficiary", .str beneficiary.full_name),
        ("country", .str country),
        ("payment_method", .str payment_method),
        ("delivery_method", .str delivery_method),
        ("message", .str ("Transfer of $" ++ fmt2 amount ++ " USD to " ++
          beneficiary.full_name ++ " in " ++ country ++
          " confirmed. Confirmation code: " ++ confirmation_code))],
       st, hist)

/- ---------------------------------------------------------------- -/
/- Spec-shaped definitions (for refinement statements)               -/
/- ---------------------------------------------------------------- -/

/-- Spec wording: the three windows in their strict evaluation order. -/
def windowNames : List String := ["daily", "monthly", "semester"]

/-- Remaining headroom of a named window. -/
def remainingOf (l : TransferLimits) : String → ℚ
  | "daily" => l.daily_remaining
  | "monthly" => l.monthly_remaining
  | _ => l.semester_remaining

/-- Spec wording: the first window whose remaining headroom is smaller than
the proposed amount. -/
def firstExceeded (l : TransferLimits) (amount : ℚ) : Option String :=
  windowNames.find? fun w => decide (remainingOf l w < amount)

/-- Spec wording: the rejection reason names the window and states its exact
remaining headroom formatted to two decimal places. -/
def reasonFor (w : String) (rem : ℚ) : String :=
  "Transfer would exceed " ++ w ++ " limit. Remaining: $" ++ fmt2 rem ++ " USD"

/-- Spec wording: lookback window in days for each period token. -/
def windowDays : String → Option Int
  | "daily" => some 1
  | "monthly" => some 30
  | "semester" => some 180
  | _ => none

/-- Spec wording: sum of the amounts of exactly the transactions at or after
the cutoff `now - days`. -/
def sumInWindow (transactions : List Transaction) (current_time days : Int) : ℚ :=
  ((transactions.filter fun txn => current_time - days * 86400 ≤ txn.timestamp).map
    Transaction.amount).sum

/-- Spec wording for the beneficiary filter: firstname matches
case-insensitively, and when a lastname is supplied it must also match
case-insensitively. -/
def benMatch (firstname : String) (lastname : Option String)
    (r : TransactionHistoryRecord) : Bool :=
  pyLowerS r.beneficiary.firstname == pyLowerS firstname &&
    (if nameTruthy lastname then
      pyLowerS r.beneficiary.lastname == pyLowerS (lastname.getD "") else true)

/- ---------------------------------------------------------------- -/
/- Helper lemmas: calendar                                           -/
/- ---------------------------------------------------------------- -/

theorem gZ_step1 (x : Int) : gZ x ≤ gZ (x + 1) := by
  unfold gZ
  omega

theorem gZ_mono {x y : Int} (h : x ≤ y) : gZ x ≤ gZ y :=
  Int.le_induction (P := fun n => gZ x ≤ gZ n) (le_refl _)
    (fun n _ ih => le_trans ih (gZ_step1 n)) y h

theorem yoeZ_mono {x y : Int} (h : x ≤ y) : yoeZ x ≤ yoeZ y := by
  unfold yoeZ
  have := gZ_mono h
  omega

set_option maxRecDepth 2000 in
theorem yoe_at_start : ∀ y : Nat, y < 400 → yoeZ (startZ y) = y := by decide

set_option maxRecDepth 2000 in
theorem yoe_end : ∀ y : Nat, y < 400 → yoeZ (startZ (y + 1) - 1) = y := by decide

theorem yoe_last : yoeZ 146096 = 399 := by decide

theorem startZ_succ_le (y : Int) : startZ (y + 1) ≤ startZ y + 366 := by
  unfold startZ
  omega

theorem doe_year_bounds (doe : Int) (h0 : 0 ≤ doe) (h : doe ≤ 146096) :
    0 ≤ yoeZ doe ∧ yoeZ doe ≤ 399 ∧ startZ (yoeZ doe) ≤ doe ∧ doe ≤ startZ (yoeZ doe) + 365 := by
  have h0' : 0 ≤ yoeZ doe := by
    have : yoeZ 0 = 0 := by decide
    have h2 := yoeZ_mono h0
    omega
  have hA : yoeZ doe ≤ 399 := by
    have := yoeZ_mono h
    rw [yoe_last] at this
    exact this
  refine ⟨h0', hA, ?_, ?_⟩
  · by_contra hB
    push_neg at hB
    have hy1 : 1 ≤ yoeZ doe := by
      by_contra hy0
      have hz : yoeZ doe = 0 := by omega
      rw [hz] at hB
      simp [startZ] at hB
      omega
    obtain ⟨yn, hyn, _⟩ : ∃ yn : Nat, (yn : Int) = yoeZ doe - 1 ∧ yn < 400 :=
      ⟨(yoeZ doe - 1).toNat, by omega, by omega⟩
    have hle : doe ≤ startZ ((yn : Int) + 1) - 1 := by
      rw [hyn]
      have he : yoeZ doe - 1 + 1 = yoeZ doe := by ring
      rw [he]
      omega
    have hmono := yoeZ_mono hle
    rw [yoe_end yn (by omega)] at hmono
    omega
  · by_contra hC
    push_neg at hC
    rcases lt_or_ge (yoeZ doe) 399 with h399 | h399
    · obtain ⟨yn, hyn, hyn400⟩ : ∃ yn : Nat, (yn : Int) = yoeZ doe + 1 ∧ yn < 400 :=
        ⟨(yoeZ doe + 1).toNat, by omega, by omega⟩
      have hge : startZ (yn : Int) ≤ doe := by
        rw [hyn]
        have := startZ_succ_le (yoeZ doe)
        omega
      have hmono := yoeZ_mono hge
      rw [yoe_at_start yn hyn400] at hmono
      omega
    · have h399' : yoeZ doe = 399 := by omega
      rw [h399'] at hC
      simp [startZ] at hC
      omega

set_option maxHeartbeats 1000000 in
theorem roundtrip_core (z era doe yoe doy mp d m y : Int)
    (h2 : doe = z + 719468 - era * 146097)
    (hy0 : 0 ≤ yoe) (hy399 : yoe ≤ 399)
    (hb1 : 365 * yoe + yoe / 4 - yoe / 100 ≤ doe)
    (hb2 : doe ≤ 365 * yoe + yoe / 4 - yoe / 100 + 365)
    (h4 : doy = doe - (365 * yoe + yoe / 4 - yoe / 100))
    (h5 : mp = (5 * doy + 2) / 153)
    (h6 : d = doy - (153 * mp + 2) / 5 + 1)
    (h7 : m = mp + (if mp < 10 then 3 else -9))
    (h8 : y = yoe + era * 400 + (if m ≤ 2 then 1 else 0)) :
    daysFromCivil y m d = z := by
  unfold daysFromCivil
  simp only
  split_ifs <;> omega

set_option maxHeartbeats 1000000 in
theorem days_civil_roundtrip (z : Int) :
    daysFromCivil (civilFromDays z).1 (civilFromDays z).2.1 (civilFromDays z).2.2 = z := by
  have hdoe1 : 0 ≤ z + 719468 - (z + 719468) / 146097 * 146097 := by omega
  have hdoe2 : z + 719468 - (z + 719468) / 146097 * 146097 ≤ 146096 := by omega
  have hb := doe_year_bounds _ hdoe1 hdoe2
  unfold yoeZ gZ startZ at hb
  unfold civilFromDays
  simp only
  exact roundtrip_core z ((z + 719468) / 146097) _ _ _ _ _ _ _ rfl hb.1 hb.2.1 hb.2.2.1
    hb.2.2.2 rfl rfl rfl rfl rfl

set_option maxHeartbeats 1000000 in
theorem civil_core_bounds (z era doe yoe doy mp d m y : Int)
    (hzlo : -719162 ≤ z) (hzhi : z ≤ 2932896)
    (h1 : era = (z + 719468) / 146097)
    (h2 : doe = z + 719468 - era * 146097)
    (hy0 : 0 ≤ yoe) (hy399 : yoe ≤ 399)
    (hb1 : 365 * yoe + yoe / 4 - yoe / 100 ≤ doe)
    (hb2 : doe ≤ 365 * yoe + yoe / 4 - yoe / 100 + 365)
    (h4 : doy = doe - (365 * yoe + yoe / 4 - yoe / 100))
    (h5 : mp = (5 * doy + 2) / 153)
    (h6 : d = doy - (153 * mp + 2) / 5 + 1)
    (h7 : m = mp + (if mp < 10 then 3 else -9))
    (h8 : y = yoe + era * 400 + (if m ≤ 2 then 1 else 0)) :
    1 ≤ y ∧ y ≤ 9999 ∧ 1 ≤ m ∧ m ≤ 12 ∧ 1 ≤ d ∧ d ≤ 31 := by
  split_ifs at h7 h8 <;> omega

set_option maxHeartbeats 1000000 in
theorem civil_bounds (z : Int) (hzlo : -719162 ≤ z) (hzhi : z ≤ 2932896) :
    1 ≤ (civilFromDays z).1 ∧ (civilFromDays z).1 ≤ 9999 ∧
    1 ≤ (civilFromDays z).2.1 ∧ (civilFromDays z).2.1 ≤ 12 ∧
    1 ≤ (civilFromDays z).2.2 ∧ (civilFromDays z).2.2 ≤ 31 := by
  have hdoe1 : 0 ≤ z + 719468 - (z + 719468) / 146097 * 146097 := by omega
  have hdoe2 : z + 719468 - (z + 719468) / 146097 * 146097 ≤ 146096 := by omega
  have hb := doe_year_bounds _ hdoe1 hdoe2
  unfold yoeZ gZ startZ at hb
  unfold civilFromDays
  simp only
  exact civil_core_bounds z ((z + 719468) / 146097) _ _ _ _ _ _ _ hzlo hzhi rfl rfl
    hb.1 hb.2.1 hb.2.2.1 hb.2.2.2 rfl rfl rfl rfl rfl

theorem chDigit_digitCh : ∀ d : Nat, d < 10 → chDigit (digitCh d) = some d := by decide

theorem fromiso_render (Y M D H Mi S : Nat) (hY : Y < 10000) (hM : M < 100) (hD : D < 100)
    (hH : H < 100) (hMi : Mi < 100) (hS : S < 100) :
    fromiso ⟨pad4 Y ++ '-' :: (pad2 M ++ '-' :: (pad2 D ++ 'T' :: (pad2 H ++ ':' ::
      (pad2 Mi ++ ':' :: pad2 S))))⟩ =
      some (daysFromCivil Y M D * 86400 + H * 3600 + Mi * 60 + S) := by
  have e01 := chDigit_digitCh (Y / 1000 % 10) (by omega)
  have e02 := chDigit_digitCh (Y / 100 % 10) (by omega)
  have e03 := chDigit_digitCh (Y / 10 % 10) (by omega)
  have e04 := chDigit_digitCh (Y % 10) (by omega)
  have e05 := chDigit_digitCh (M / 10 % 10) (by omega)
  have e06 := chDigit_digitCh (M % 10) (by omega)
  have e07 := chDigit_digitCh (D / 10 % 10) (by omega)
  have e08 := chDigit_digitCh (D % 10) (by omega)
  have e09 := chDigit_digitCh (H / 10 % 10) (by omega)
  have e10 := chDigit_digitCh (H % 10) (by omega)
  have e11 := chDigit_digitCh (Mi / 10 % 10) (by omega)
  have e12 := chDigit_digitCh (Mi % 10) (by omega)
  have e13 := chDigit_digitCh (S / 10 % 10) (by omega)
  have e14 := chDigit_digitCh (S % 10) (by omega)
  have rY : 1000 * (Y / 1000 % 10) + 100 * (Y / 100 % 10) + 10 * (Y / 10 % 10) + Y % 10 = Y := by
    omega
  have rM : 10 * (M / 10 % 10) + M % 10 = M := by omega
  have rD : 10 * (D / 10 % 10) + D % 10 = D := by omega
  have rH : 10 * (H / 10 % 10) + H % 10 = H := by omega
  have rMi : 10 * (Mi / 10 % 10) + Mi % 10 = Mi := by omega
  have rS : 10 * (S / 10 % 10) + S % 10 = S := by omega
  simp [fromiso, pad4, pad2, parse4, parse2, e01, e02, e03, e04, e05, e06, e07, e08, e09,
    e10, e11, e12, e13, e14, rY, rM, rD, rH, rMi, rS]

theorem iso_roundtrip (t : Int) (h1 : pyTimeMin ≤ t) (h2 : t ≤ pyTimeMax) :
    fromiso (isoformat t) = some t := by
  unfold pyTimeMin at h1
  unfold pyTimeMax at h2
  have hdlo : -719162 ≤ t / 86400 := by omega
  have hdhi : t / 86400 ≤ 2932896 := by omega
  have hcb := civil_bounds (t / 86400) hdlo hdhi
  have hsod : (t % 86400).toNat < 86400 := by omega
  simp only [isoformat]
  rw [fromiso_render _ _ _ _ _ _ (by omega) (by omega) (by omega) (by omega) (by omega)
    (by omega)]
  have hy : ((civilFromDays (t / 86400)).1.toNat : Int) = (civilFromDays (t / 86400)).1 := by
    omega
  have hm : ((civilFromDays (t / 86400)).2.1.toNat : Int) = (civilFromDays (t / 86400)).2.1 := by
    omega
  have hd : ((civilFromDays (t / 86400)).2.2.toNat : Int) = (civilFromDays (t / 86400)).2.2 := by
    omega
  rw [hy, hm, hd, days_civil_roundtrip]
  congr 1
  omega

/- ---------------------------------------------------------------- -/
/- Helper lemmas: decimal digit strings                              -/
/- ---------------------------------------------------------------- -/

/-- Value of a little-endian digit list. -/
def digVal (l : List Nat) : Nat := l.foldr (fun d acc => d + 10 * acc) 0

theorem natDigitsF_val : ∀ f n, n ≤ f → digVal (natDigitsF f n) = n := by
  intro f
  induction f with
  | zero =>
    intro n h
    have : n = 0 := by omega
    subst this
    rfl
  | succ f ih =>
    intro n h
    match n with
    | 0 => rfl
    | n + 1 =>
      have hdiv : (n + 1) / 10 ≤ f := by omega
      simp only [natDigitsF, digVal, List.foldr]
      have := ih ((n + 1) / 10) hdiv
      unfold digVal at this
      rw [this]
      omega

theorem natDigitsF_lt10 : ∀ f n d, d ∈ natDigitsF f n → d < 10 := by
  intro f
  induction f with
  | zero => intro n d h; simp [natDigitsF] at h
  | succ f ih =>
    intro n d h
    match n with
    | 0 => simp [natDigitsF] at h
    | n + 1 =>
      simp only [natDigitsF, List.mem_cons] at h
      rcases h with h | h
      · omega
      · exact ih _ _ h

theorem natDigitsF_length : ∀ f n k, n ≤ f → n < 10 ^ k → (natDigitsF f n).length ≤ k := by
  intro f
  induction f with
  | zero =>
    intro n k h _
    have : n = 0 := by omega
    subst this
    simp [natDigitsF]
  | succ f ih =>
    intro n k h hk
    match n with
    | 0 => simp [natDigitsF]
    | n + 1 =>
      match k with
      | 0 => omega
      | k + 1 =>
        simp only [natDigitsF, List.length_cons]
        have hq : (n + 1) / 10 < 10 ^ k := by
          have : 10 ^ (k + 1) = 10 ^ k * 10 := by ring
          omega
        have := ih ((n + 1) / 10) k (by omega) hq
        omega

theorem digitCh_range : ∀ d : Nat, d < 10 → 48 ≤ (digitCh d).toNat ∧ (digitCh d).toNat ≤ 57 := by
  decide

theorem natStr_digits (n : Nat) : ∀ c ∈ natStr n, 48 ≤ c.toNat ∧ c.toNat ≤ 57 := by
  intro c hc
  unfold natStr at hc
  split at hc
  · simp at hc
    subst hc
    decide
  · simp only [List.mem_map, List.mem_reverse] at hc
    obtain ⟨d, hd, rfl⟩ := hc
    exact digitCh_range d (natDigitsF_lt10 _ _ _ hd)

theorem natStr_ne_nil (n : Nat) : natStr n ≠ [] := by
  unfold natStr
  split
  · simp
  · intro h
    simp only [List.map_eq_nil_iff, List.reverse_eq_nil_iff] at h
    rename_i hn
    match hf : n, hn with
    | n + 1, _ =>
      simp [natDigitsF] at h

theorem parseNatAux_digits :
    ∀ (l : List Nat) (acc : Nat), (∀ d ∈ l, d < 10) →
      parseNatAux acc (l.map digitCh) = some (l.foldl (fun a d => 10 * a + d) acc) := by
  intro l
  induction l with
  | nil => intro acc _; rfl
  | cons d t ih =>
    intro acc h
    have hd : d < 10 := h d (by simp)
    simp only [List.map_cons, parseNatAux, chDigit_digitCh d hd, List.foldl_cons]
    exact ih _ (fun x hx => h x (by simp [hx]))

theorem foldl_digits_reverse :
    ∀ (l : List Nat) (acc : Nat),
      l.reverse.foldl (fun a d => 10 * a + d) acc = acc * 10 ^ l.length + digVal l := by
  intro l
  induction l with
  | nil => intro acc; simp [digVal]
  | cons d t ih =>
    intro acc
    simp only [List.reverse_cons, List.foldl_append, List.foldl_cons, List.foldl_nil, ih,
      List.length_cons, digVal, List.foldr]
    have : 10 ^ (t.length + 1) = 10 ^ t.length * 10 := by ring
    rw [this]
    ring

theorem parseNat_natStr (n : Nat) : parseNat (natStr n) = some n := by
  by_cases h0 : n = 0
  · subst h0
    rfl
  · unfold natStr
    rw [if_neg h0]
    have hne : natDigitsF n n ≠ [] := by
      match hm : n, h0 with
      | n + 1, _ => simp [natDigitsF]
    have : ((natDigitsF n n).reverse).map digitCh ≠ [] := by
      simp [hne]
    rw [show ((natDigitsF n n).reverse).map digitCh =
        ((natDigitsF n n).reverse).map digitCh from rfl]
    unfold parseNat
    split
    · simp_all
    · rw [parseNatAux_digits _ _ (fun d hd => natDigitsF_lt10 _ _ _ (by simpa using hd))]
      rw [foldl_digits_reverse]
      simp [natDigitsF_val n n (le_refl n)]

theorem parseNat_cons (c : Char) (cs : List Char) : parseNat (c :: cs) = parseNatAux 0 (c :: cs) :=
  rfl

theorem parseNatAux_zeros : ∀ (j : Nat) (l : List Char),
    parseNatAux 0 (List.replicate j '0' ++ l) = parseNatAux 0 l := by
  intro j
  induction j with
  | zero => intro l; rfl
  | succ j ih =>
    intro l
    simp only [List.replicate_succ, List.cons_append, parseNatAux]
    have h0 : chDigit '0' = some 0 := rfl
    rw [h0]
    exact ih l

theorem natStr_length_le (m k : Nat) (hk : 1 ≤ k) (hm : m < 10 ^ k) :
    (natStr m).length ≤ k := by
  unfold natStr
  split
  · simpa using hk
  · simp only [List.length_map, List.length_reverse]
    exact natDigitsF_length m m k (le_refl m) hm

theorem parseNat_padZ (k m : Nat) (hk : 1 ≤ k) (hm : m < 10 ^ k) :
    parseNat (padZ k m) = some m ∧ (padZ k m).length = k := by
  have hlen := natStr_length_le m k hk hm
  have hstr : parseNatAux 0 (natStr m) = some m := by
    rcases hs : natStr m with _ | ⟨c, cs⟩
    · exact absurd hs (natStr_ne_nil m)
    · rw [← parseNat_cons, ← hs, parseNat_natStr]
  constructor
  · unfold padZ
    rcases hj : k - (natStr m).length with _ | j
    · simp only [List.replicate_zero, List.nil_append, parseNat_natStr]
    · have h2 : List.replicate (j + 1) '0' ++ natStr m =
          '0' :: (List.replicate j '0' ++ natStr m) := by
        simp [List.replicate_succ]
      rw [h2, parseNat_cons, ← h2, parseNatAux_zeros, hstr]
  · unfold padZ
    simp only [List.length_append, List.length_replicate]
    omega

theorem padZ_digits (k m : Nat) : ∀ c ∈ padZ k m, 48 ≤ c.toNat ∧ c.toNat ≤ 57 := by
  intro c hc
  unfold padZ at hc
  rw [List.mem_append] at hc
  rcases hc with hc | hc
  · have := List.eq_of_mem_replicate hc
    subst this
    decide
  · exact natStr_digits m c hc

theorem digit_ne_dot {c : Char} (h : 48 ≤ c.toNat ∧ c.toNat ≤ 57) : (c != '.') = true := by
  rcases h with ⟨h1, h2⟩
  simp only [bne_iff_ne, ne_eq]
  intro he
  subst he
  simp at h1

theorem digit_ne_minus {c : Char} (h : 48 ≤ c.toNat ∧ c.toNat ≤ 57) : c ≠ '-' := by
  rcases h with ⟨h1, h2⟩
  intro he
  subst he
  simp at h1

theorem takeWhile_split (xs ys : List Char) (hx : ∀ c ∈ xs, (c != '.') = true) :
    (xs ++ '.' :: ys).takeWhile (fun c => c != '.') = xs ∧
    (xs ++ '.' :: ys).dropWhile (fun c => c != '.') = '.' :: ys := by
  induction xs with
  | nil => constructor <;> rfl
  | cons c t ih =>
    have hc : (c != '.') = true := hx c (by simp)
    have iht := ih (fun d hd => hx d (by simp [hd]))
    constructor
    · simp only [List.cons_append, List.takeWhile_cons, hc, if_true, iht.1]
    · simp only [List.cons_append, List.dropWhile_cons, hc, if_true, iht.2]

theorem decParseAbs_int (a : Nat) : decParseAbs (natStr a ++ ['.', '0']) = some (a : ℚ) := by
  have hsplit := takeWhile_split (natStr a) ['0']
    (fun c hc => digit_ne_dot (natStr_digits a c hc))
  unfold decParseAbs
  rw [hsplit.1, hsplit.2]
  simp only [parseNat_natStr, List.isEmpty_cons, Option.bind_eq_bind, Option.some_bind]
  have h0 : parseNat ['0'] = some 0 := rfl
  simp [h0]

theorem decParseAbs_frac (a k : Nat) (hk : 1 ≤ k) :
    decParseAbs (natStr (a / 10 ^ k) ++ '.' :: padZ k (a % 10 ^ k)) =
      some ((a : ℚ) / 10 ^ k) := by
  have hmod : a % 10 ^ k < 10 ^ k := Nat.mod_lt _ (Nat.pos_pow_of_pos k (by norm_num))
  have hpz := parseNat_padZ k (a % 10 ^ k) hk hmod
  have hsplit := takeWhile_split (natStr (a / 10 ^ k)) (padZ k (a % 10 ^ k))
    (fun c hc => digit_ne_dot (natStr_digits _ c hc))
  have hne : (padZ k (a % 10 ^ k)).isEmpty = false := by
    rcases hp : padZ k (a % 10 ^ k) with _ | ⟨c, cs⟩
    · rw [hp] at hpz
      simp [parseNat] at hpz
    · rfl
  unfold decParseAbs
  rw [hsplit.1, hsplit.2]
  simp only [parseNat_natStr, hne, Bool.false_eq_true, if_false, hpz.1, hpz.2,
    Option.bind_eq_bind, Option.some_bind]
  congr 1
  have hdm : 10 ^ k * (a / 10 ^ k) + a % 10 ^ k = a := Nat.div_add_mod a (10 ^ k)
  have hcast := congrArg (fun x : Nat => (x : ℚ)) hdm
  push_cast at hcast
  have hpow : (10 : ℚ) ^ k ≠ 0 := by positivity
  field_simp
  linarith [hcast]

theorem natStr_head_ne_minus (x : Nat) (c : Char) (cs : List Char)
    (hh : (natStr x ++ cs).head? = some c) : c ≠ '-' := by
  rcases hs : natStr x with _ | ⟨d, ds⟩
  · exact absurd hs (natStr_ne_nil x)
  · rw [hs] at hh
    simp only [List.cons_append, List.head?_cons, Option.some_inj] at hh
    subst hh
    exact digit_ne_minus (natStr_digits x d (by rw [hs]; simp))

theorem decParse_cons_minus (t : List Char) :
    decParse ('-' :: t) = (decParseAbs t).map Neg.neg := by
  unfold decParse
  simp

theorem decParse_minus_append (t u : List Char) :
    decParse (['-'] ++ t ++ u) = (decParseAbs (t ++ u)).map Neg.neg := by
  have hshape : (['-'] ++ t ++ u : List Char) = '-' :: (t ++ u) := by simp
  rw [hshape, decParse_cons_minus]

theorem dec_roundtrip (q : ℚ) (l : List Char) (h : decRepr q = some l) : decParse l = some q := by
  unfold decRepr at h
  rcases hs : decSearch q with _ | k
  · rw [hs] at h
    simp at h
  · rw [hs] at h
    simp only at h
    have hden : (q * 10 ^ k).den = 1 := by
      unfold decSearch at hs
      have := List.find?_some hs
      simpa using this
    have hnum : ((q * 10 ^ k).num : ℚ) = q * 10 ^ k := Rat.coe_int_num_of_den_eq_one hden
    have hpow : (10 : ℚ) ^ k ≠ 0 := by positivity
    have hq : q = (((q * 10 ^ k).num : ℚ)) / 10 ^ k := by
      rw [hnum]
      field_simp
    rcases le_or_lt 0 (q * 10 ^ k).num with hpos | hneg
    · have hsign : ¬ ((q * 10 ^ k).num < 0) := by omega
      have h1 : (((q * 10 ^ k).num.natAbs : ℤ)) = (q * 10 ^ k).num := Int.natAbs_of_nonneg hpos
      have habs : (((q * 10 ^ k).num.natAbs : ℚ)) = ((q * 10 ^ k).num : ℚ) := by
        rw [Int.cast_natAbs, Int.cast_abs]
        have h2 := congrArg (fun z : ℤ => (z : ℚ)) h1
        push_cast at h2
        exact h2
      by_cases hk : k = 0
      · subst hk
        rw [if_pos rfl, if_neg hsign] at h
        simp only [List.nil_append] at h
        have hl := Option.some.inj h
        subst hl
        unfold decParse
        rw [if_neg (by
          intro hh
          exact natStr_head_ne_minus _ _ _ hh rfl)]
        rw [decParseAbs_int]
        refine congrArg some ?_
        rw [habs, hnum]
        norm_num
      · rw [if_neg hk, if_neg hsign] at h
        simp only [List.nil_append] at h
        have hl := Option.some.inj h
        subst hl
        unfold decParse
        rw [if_neg (by
          intro hh
          exact natStr_head_ne_minus _ _ _ hh rfl)]
        rw [decParseAbs_frac _ _ (by omega)]
        refine congrArg some ?_
        rw [habs, hnum]
        field_simp
    · have hsign : (q * 10 ^ k).num < 0 := hneg
      have h1 : (((q * 10 ^ k).num.natAbs : ℤ)) = -(q * 10 ^ k).num := by omega
      have habs : (((q * 10 ^ k).num.natAbs : ℚ)) = -((q * 10 ^ k).num : ℚ) := by
        rw [Int.cast_natAbs, Int.cast_abs]
        have h2 := congrArg (fun z : ℤ => (z : ℚ)) h1
        push_cast at h2
        exact h2
      by_cases hk : k = 0
      · subst hk
        rw [if_pos rfl, if_pos hsign] at h
        have hl := Option.some.inj h
        subst hl
        rw [decParse_minus_append, decParseAbs_int]
        simp only [Option.map_some']
        refine congrArg some ?_
        rw [habs, hnum]
        norm_num
      · rw [if_neg hk, if_pos hsign] at h
        have hl := Option.some.inj h
        subst hl
        rw [decParse_minus_append, decParseAbs_frac _ _ (by omega)]
        simp only [Option.map_some']
        refine congrArg some ?_
        rw [habs, hnum]
        field_simp

/- ---------------------------------------------------------------- -/
/- Helper lemmas: history store                                      -/
/- ---------------------------------------------------------------- -/

theorem decRepr_of_search (q : ℚ) (k : Nat) (h : decSearch q = some k) :
    ∃ l, decRepr q = some l := by
  unfold decRepr
  rw [h]
  dsimp only
  by_cases hk : k = 0
  · subst hk
    rw [if_pos rfl]
    exact ⟨_, rfl⟩
  · rw [if_neg hk]
    exact ⟨_, rfl⟩

theorem record_row_roundtrip (r : TransactionHistoryRecord)
    (hf : r.beneficiary.firstname ≠ "")
    (hl : r.beneficiary.lastname ≠ "")
    (ham : decSearch r.amount ≠ none)
    (ht1 : pyTimeMin ≤ r.timestamp) (ht2 : r.timestamp ≤ pyTimeMax) :
    recordOfRow (rowOfRecord r) = some r := by
  obtain ⟨k, hk⟩ : ∃ k, decSearch r.amount = some k := by
    rcases hs : decSearch r.amount with _ | k
    · exact absurd hs ham
    · exact ⟨k, rfl⟩
  obtain ⟨dl, hdl⟩ := decRepr_of_search r.amount k hk
  have hben : mkBeneficiary r.beneficiary.firstname r.beneficiary.lastname =
      .ok r.beneficiary := by
    unfold mkBeneficiary
    rw [if_neg (by simpa [String.isEmpty_iff] using hf),
        if_neg (by simpa [String.isEmpty_iff] using hl)]
  have hamount : decParse (floatStr r.amount).data = some r.amount := by
    unfold floatStr
    rw [hdl]
    exact dec_roundtrip r.amount dl hdl
  have hts : fromiso (isoformat r.timestamp) = some r.timestamp :=
    iso_roundtrip r.timestamp ht1 ht2
  unfold recordOfRow rowOfRecord
  simp only [hben, hamount, hts, Option.bind_eq_bind, Option.some_bind]
  rfl

theorem loadAux_append (store : HistStore) (l : List TransactionHistoryRecord)
    (row : HistRow) (r : TransactionHistoryRecord)
    (hrow : recordOfRow row = some r) (hph : row.phone_number.isEmpty = false)
    (hstore : loadAux store = some l) :
    loadAux (store ++ [row]) = some (l ++ [r]) := by
  induction store generalizing l with
  | nil =>
    simp only [loadAux] at hstore
    have : l = [] := by simpa using hstore.symm
    subst this
    simp only [List.nil_append, loadAux, hph, Bool.false_eq_true, if_false, hrow,
      Option.bind_eq_bind, Option.some_bind, List.nil_append]
    rfl
  | cons hd tl ih =>
    simp only [loadAux, List.cons_append] at hstore ⊢
    by_cases hhd : hd.phone_number.isEmpty
    · rw [if_pos hhd] at hstore ⊢
      exact ih l hstore
    · rw [if_neg hhd] at hstore ⊢
      rcases hr : recordOfRow hd with _ | rh
      · rw [hr] at hstore
        simp at hstore
      · rw [hr] at hstore
        simp only [Option.bind_eq_bind, Option.some_bind] at hstore ⊢
        rcases htl : loadAux tl with _ | lt
        · rw [htl] at hstore
          simp at hstore
        · rw [htl] at hstore
          simp only [Option.some_bind, Option.some_inj] at hstore
          simp only [List.append_eq]
          rw [ih lt htl]
          have hstore' : rh :: lt = l := by simpa using hstore
          subst hstore'
          rfl

/- ---------------------------------------------------------------- -/
/- Helper lemmas: limits engine                                      -/
/- ---------------------------------------------------------------- -/

theorem sum_filter_amount_le (l : List Transaction) (c1 c2 : Int) (hc : c2 ≤ c1)
    (hpos : ∀ t ∈ l, 0 ≤ t.amount) :
    ((l.filter fun t => c1 ≤ t.timestamp).map Transaction.amount).sum ≤
      ((l.filter fun t => c2 ≤ t.timestamp).map Transaction.amount).sum := by
  induction l with
  | nil => simp
  | cons t rest ih =>
    have hrest := ih (fun x hx => hpos x (by simp [hx]))
    have ht := hpos t (by simp)
    by_cases h1 : c1 ≤ t.timestamp
    · have h2 : c2 ≤ t.timestamp := le_trans hc h1
      simp only [List.filter_cons]
      rw [if_pos (by simpa using h1), if_pos (by simpa using h2)]
      simp only [List.map_cons, List.sum_cons]
      linarith
    · by_cases h2 : c2 ≤ t.timestamp
      · simp only [List.filter_cons]
        rw [if_neg (by simpa using h1), if_pos (by simpa using h2)]
        simp only [List.map_cons, List.sum_cons]
        linarith
      · simp only [List.filter_cons]
        rw [if_neg (by simpa using h1), if_neg (by simpa using h2)]
        exact hrest

/- ---------------------------------------------------------------- -/
/- Claim theorems                                                    -/
/- ---------------------------------------------------------------- -/

set_option maxRecDepth 100000 in
/-- C10: Transaction construction treats both amount bounds as inclusive: an
amount exactly equal to MIN_AMOUNT (0.5) and one exactly equal to DAILY_LIMIT
(1500.0) are accepted, and the amount validation fails exactly for amounts
strictly below 0.5 or strictly above 1500.0. -/
theorem amount_bounds_inclusive :
    (∀ v : ℚ, validateAmountField v = .ok v ↔ (MIN_AMOUNT ≤ v ∧ v ≤ DAILY_LIMIT)) ∧
    mkTransaction ⟨"John", "Doe"⟩ "México" MIN_AMOUNT "credit_card" "digital_wallet" 0 =
      .ok { beneficiary := ⟨"John", "Doe"⟩, country := "México", amount := MIN_AMOUNT,
            payment_method := "credit_card", delivery_method := "digital_wallet",
            timestamp := 0 } ∧
    mkTransaction ⟨"John", "Doe"⟩ "México" DAILY_LIMIT "credit_card" "digital_wallet" 0 =
      .ok { beneficiary := ⟨"John", "Doe"⟩, country := "México", amount := DAILY_LIMIT,
            payment_method := "credit_card", delivery_method := "digital_wallet",
            timestamp := 0 } := by
  refine ⟨?_, by with_unfolding_all rfl, by with_unfolding_all rfl⟩
  intro v
  unfold validateAmountField MIN_AMOUNT DAILY_LIMIT
  split_ifs with h1 h2 h3
  · simp only [false_iff]
    intro ⟨ha, _⟩
    norm_num at h1 ha
    linarith
  · simp only [false_iff]
    intro ⟨ha, _⟩
    exact absurd ha (not_le.mpr h2)
  · simp only [false_iff]
    intro ⟨_, hb⟩
    exact absurd hb (not_le.mpr h3)
  · simp only [true_iff]
    constructor
    · exact not_lt.mp h2
    · exact not_lt.mp h3

set_option maxRecDepth 100000 in
/-- C3: can_transfer evaluates daily, then monthly, then semester; the first
window whose remaining headroom is smaller than the amount yields (false,
reason naming that window with its headroom formatted to two decimals); when
every window has headroom ≥ amount the result is (true, none); on the
1400/2500/10000 snapshot with amount 200 the reported window is daily, not
monthly. -/
theorem can_transfer_first_window :
    (∀ (l : TransferLimits) (amount : ℚ),
      l.can_transfer amount = match firstExceeded l amount with
        | none => (true, none)
        | some w => (false, some (reasonFor w (remainingOf l w)))) ∧
    (∀ (l : TransferLimits) (amount : ℚ),
      (l.can_transfer amount).1 = true ↔ (amount ≤ l.daily_remaining ∧
        amount ≤ l.monthly_remaining ∧ amount ≤ l.semester_remaining)) ∧
    TransferLimits.can_transfer
        { daily_used := 1400, monthly_used := 2500, semester_used := 10000 } 200 =
      (false, some "Transfer would exceed daily limit. Remaining: $100.00 USD") ∧
    strMentions "Transfer would exceed daily limit. Remaining: $100.00 USD" "daily" = true ∧
    strMentions "Transfer would exceed daily limit. Remaining: $100.00 USD" "monthly" = false := by
  refine ⟨?_, ?_, by with_unfolding_all rfl, by decide, by decide⟩
  · intro l amount
    unfold TransferLimits.can_transfer firstExceeded windowNames remainingOf reasonFor
    by_cases h1 : l.daily_remaining < amount
    · simp [List.find?, h1]
    · by_cases h2 : l.monthly_remaining < amount
      · simp [List.find?, h1, h2]
      · by_cases h3 : l.semester_remaining < amount
        · simp [List.find?, h1, h2, h3]
        · simp [List.find?, h1, h2, h3]
  · intro l amount
    unfold TransferLimits.can_transfer
    split_ifs with h1 h2 h3
    · simp only [Bool.false_eq_true, false_iff]
      intro hc
      exact absurd h1 (not_lt.mpr hc.1)
    · simp only [Bool.false_eq_true, false_iff]
      intro hc
      exact absurd h2 (not_lt.mpr hc.2.1)
    · simp only [Bool.false_eq_true, false_iff]
      intro hc
      exact absurd h3 (not_lt.mpr hc.2.2)
    · simp only [true_iff]
      exact ⟨not_lt.mp h1, not_lt.mp h2, not_lt.mp h3⟩

/-- C4: calculate_period_usage maps daily/monthly/semester to lookback windows
of exactly 1, 30 and 180 days, summing the amounts of exactly the transactions
with timestamp ≥ the cutoff (a transaction exactly at the cutoff counts;
strictly older transactions contribute nothing); any other period token yields
the invalid-period error. -/
theorem period_usage_window :
    (∀ (txns : List Transaction) (now : Int) (p : String),
      calculate_period_usage txns now p = match windowDays p with
        | some d => .ok (sumInWindow txns now d)
        | none => .error ("Invalid period: " ++ p)) ∧
    (∀ (txns : List Transaction) (now : Int) (p : String) (d : Int) (t : Transaction),
      windowDays p = some d → t.timestamp < now - d * 86400 →
      calculate_period_usage (txns ++ [t]) now p = calculate_period_usage txns now p) ∧
    (∀ (txns : List Transaction) (now : Int) (p : String) (d : Int) (t : Transaction),
      windowDays p = some d → t.timestamp = now - d * 86400 →
      calculate_period_usage (txns ++ [t]) now p =
        (calculate_period_usage txns now p).map (· + t.amount)) := by
  have hmain : ∀ (txns : List Transaction) (now : Int) (p : String),
      calculate_period_usage txns now p = match windowDays p with
        | some d => .ok (sumInWindow txns now d)
        | none => .error ("Invalid period: " ++ p) := by
    intro txns now p
    by_cases h1 : p = "daily"
    · subst h1
      rw [show windowDays "daily" = some 1 from rfl]
      unfold calculate_period_usage sumInWindow
      rw [if_pos rfl]
      dsimp only
      rw [show now - 1 * 86400 = now - 86400 by ring]
    · by_cases h2 : p = "monthly"
      · subst h2
        rw [show windowDays "monthly" = some 30 from rfl]
        unfold calculate_period_usage sumInWindow
        rw [if_neg (by decide), if_pos rfl]
      · by_cases h3 : p = "semester"
        · subst h3
          rw [show windowDays "semester" = some 180 from rfl]
          unfold calculate_period_usage sumInWindow
          rw [if_neg (by decide), if_neg (by decide), if_pos rfl]
        · have hw : windowDays p = none := by
            unfold windowDays
            split
            · exact absurd rfl h1
            · exact absurd rfl h2
            · exact absurd rfl h3
            · rfl
          rw [hw]
          unfold calculate_period_usage
          rw [if_neg h1, if_neg h2, if_neg h3]
  refine ⟨hmain, ?_, ?_⟩
  · intro txns now p d t hp ht
    rw [hmain, hmain, hp]
    dsimp only
    congr 1
    unfold sumInWindow
    rw [List.filter_append]
    have hone : [t].filter (fun txn => now - d * 86400 ≤ txn.timestamp) = [] := by
      simp only [List.filter_cons, List.filter_nil]
      rw [if_neg (by simpa using (by omega : ¬ now - d * 86400 ≤ t.timestamp))]
    rw [hone, List.append_nil]
  · intro txns now p d t hp ht
    rw [hmain, hmain, hp]
    dsimp only
    unfold sumInWindow
    rw [List.filter_append]
    have hone : [t].filter (fun txn => now - d * 86400 ≤ txn.timestamp) = [t] := by
      simp only [List.filter_cons, List.filter_nil]
      rw [if_pos (by simpa using (by omega : now - d * 86400 ≤ t.timestamp))]
    rw [hone]
    simp [List.sum_append, Except.map]

/-- C8: with all transaction amounts non-negative, the semester usage is at
least the monthly usage, which is at least the daily usage (the lookback
windows nest). -/
theorem period_usage_nested (txns : List Transaction) (now : Int)
    (hpos : ∀ t ∈ txns, 0 ≤ t.amount) :
    ∃ a b c : ℚ, calculate_period_usage txns now "daily" = .ok a ∧
      calculate_period_usage txns now "monthly" = .ok b ∧
      calculate_period_usage txns now "semester" = .ok c ∧ a ≤ b ∧ b ≤ c := by
  refine ⟨((txns.filter fun txn => now - 86400 ≤ txn.timestamp).map Transaction.amount).sum,
    ((txns.filter fun txn => now - 30 * 86400 ≤ txn.timestamp).map Transaction.amount).sum,
    ((txns.filter fun txn => now - 180 * 86400 ≤ txn.timestamp).map Transaction.amount).sum,
    ?_, ?_, ?_, ?_, ?_⟩
  · unfold calculate_period_usage
    rw [if_pos rfl]
  · unfold calculate_period_usage
    rw [if_neg (by decide), if_pos rfl]
  · unfold calculate_period_usage
    rw [if_neg (by decide), if_neg (by decide), if_pos rfl]
  · exact sum_filter_amount_le txns (now - 86400) (now - 30 * 86400) (by omega) hpos
  · exact sum_filter_amount_le txns (now - 30 * 86400) (now - 180 * 86400) (by omega) hpos

theorem fbhLoop_eq_filter :
    ∀ (txns : List TransactionHistoryRecord) (fn : String) (ln : Option String),
      fbhLoop txns fn ln = txns.filter (benMatch fn ln) := by
  intro txns fn ln
  induction txns with
  | nil => rfl
  | cons t rest ih =>
    rw [List.filter_cons]
    unfold fbhLoop
    rw [ih]
    cases hln : nameTruthy ln with
    | false =>
      simp only [Bool.false_eq_true, if_false]
      have hb : benMatch fn ln t = (pyLowerS t.beneficiary.firstname == pyLowerS fn) := by
        unfold benMatch
        rw [hln]
        simp
      rw [hb]
    | true =>
      simp only [if_true]
      have hb : benMatch fn ln t = ((pyLowerS t.beneficiary.firstname == pyLowerS fn) &&
          (pyLowerS t.beneficiary.lastname == pyLowerS (ln.getD ""))) := by
        unfold benMatch
        rw [hln]
        simp
      rw [hb]

/-- C7: get_user_transactions returns exactly the records with the given user
key, sorted by timestamp descending; find_beneficiary_history returns the
empty sequence for a falsy firstname and otherwise filters the user's records
by case-insensitive firstname (and lastname when supplied) — with firstname
and lastname positions not interchangeable. -/
theorem beneficiary_history_filter :
    (∀ (store : HistStore) (phone : String),
      (get_user_transactions store phone).Perm
        ((load_all store).filter fun r => r.phone_number == phone)) ∧
    (∀ (store : HistStore) (phone : String),
      List.Pairwise (fun a b => b.timestamp ≤ a.timestamp)
        (get_user_transactions store phone)) ∧
    (∀ (store : HistStore) (phone : String) (fn ln : Option String),
      nameTruthy fn = false → find_beneficiary_history store phone fn ln = []) ∧
    (∀ (store : HistStore) (phone : String) (fn ln : Option String),
      nameTruthy fn = true → find_beneficiary_history store phone fn ln =
        (get_user_transactions store phone).filter (benMatch (fn.getD "") ln)) ∧
    fbhLoop [⟨"+1234567890", ⟨"Matthews", "John"⟩, "Colombia", 200, "debit_card",
        "bank_account", 1705400000, "TXN-002"⟩,
      ⟨"+1234567890", ⟨"John", "Matthews"⟩, "Colombia", 100, "credit_card",
        "digital_wallet", 1705314600, "TXN-001"⟩] "john" (some "MATTHEWS") =
      [⟨"+1234567890", ⟨"John", "Matthews"⟩, "Colombia", 100, "credit_card",
        "digital_wallet", 1705314600, "TXN-001"⟩] := by
  refine ⟨?_, ?_, ?_, ?_, by decide⟩
  · intro store phone
    unfold get_user_transactions
    exact List.mergeSort_perm _ _
  · intro store phone
    unfold get_user_transactions
    have h := @List.sorted_mergeSort TransactionHistoryRecord
      (fun a b => decide (b.timestamp ≤ a.timestamp))
      (by intro a b c h1 h2; simp only [decide_eq_true_eq] at h1 h2 ⊢; omega)
      (by intro a b; simp only [Bool.or_eq_true, decide_eq_true_eq]; omega)
      ((load_all store).filter fun r => r.phone_number == phone)
    refine h.imp ?_
    intro a b hab
    simpa using hab
  · intro store phone fn ln h
    unfold find_beneficiary_history
    rw [h]
    rfl
  · intro store phone fn ln h
    unfold find_beneficiary_history
    rw [h]
    simp only [Bool.not_true, Bool.false_eq_true, if_false]
    exact fbhLoop_eq_filter _ _ _

/-- C9: set_country succeeds exactly when the input matches a supported
country case-insensitively; on success it writes and echoes the canonical
casing (the first match in the canonical list), on failure it returns an
error and writes nothing; set_country("colombia") stores canonical
"Colombia". -/
theorem set_country_canonicalizes :
    (∀ (st : PyDict) (country : String),
      ((∃ c ∈ SUPPORTED_COUNTRIES, pyLowerS c = pyLowerS country) ↔
        dictGet (set_country st country).1 "success" = some (.bool true)) ∧
      (∀ c, SUPPORTED_COUNTRIES.find? (fun s => pyLowerS s == pyLowerS country) = some c →
        c ∈ SUPPORTED_COUNTRIES ∧ pyLowerS c = pyLowerS country ∧
        (set_country st country).1 = [("success", .bool true), ("country", .str c),
          ("message", .str ("Country set to " ++ c))] ∧
        (set_country st country).2 = dictSet st "country" (.str c)) ∧
      (SUPPORTED_COUNTRIES.find? (fun s => pyLowerS s == pyLowerS country) = none →
        dictGet (set_country st country).1 "success" = some (.bool false) ∧
        (∃ e, dictGet (set_country st country).1 "error" = some (.str e)) ∧
        (set_country st country).2 = st)) ∧
    set_country [] "colombia" =
      ([("success", .bool true), ("country", .str "Colombia"),
        ("message", .str "Country set to Colombia")],
       [("country", .str "Colombia")]) := by
  refine ⟨?_, by decide⟩
  intro st country
  refine ⟨?_, ?_, ?_⟩
  · constructor
    · intro ⟨c, hc, hlow⟩
      have hsome : (SUPPORTED_COUNTRIES.find?
          (fun s => pyLowerS s == pyLowerS country)).isSome = true := by
        rw [List.find?_isSome]
        exact ⟨c, hc, by simpa using hlow⟩
      rcases hfind : SUPPORTED_COUNTRIES.find? (fun s => pyLowerS s == pyLowerS country)
        with _ | c'
      · rw [hfind] at hsome
        simp at hsome
      · unfold set_country
        rw [hfind]
        rfl
    · intro hsucc
      rcases hfind : SUPPORTED_COUNTRIES.find? (fun s => pyLowerS s == pyLowerS country)
        with _ | c'
      · unfold set_country at hsucc
        rw [hfind] at hsucc
        simp [dictGet, List.lookup] at hsucc
      · refine ⟨c', List.mem_of_find?_eq_some hfind, ?_⟩
        have := List.find?_some hfind
        simpa using this
  · intro c hfind
    refine ⟨List.mem_of_find?_eq_some hfind, by simpa using List.find?_some hfind, ?_, ?_⟩
    · unfold set_country
      rw [hfind]
    · unfold set_country
      rw [hfind]
  · intro hfind
    unfold set_country
    rw [hfind]
    exact ⟨rfl, ⟨_, rfl⟩, rfl⟩

/-- C1: set_amount never loads history, never consults the Limits Engine, and
in fact never succeeds at all: the hard-coded mojibake country "MÃ©xico"
in its probe Transaction fails country validation for every amount ≥
MIN_AMOUNT, and amounts below MIN_AMOUNT fail the minimum check, so the
session state is never written.  This contradicts the specified behaviour
(limit check via check_limits, then state["amount"] write on success). -/
theorem set_amount_never_succeeds :
    ∀ (st : PyDict) (amount : ℚ) (now : Int),
      dictGet (set_amount st amount now).1 "success" = some (.bool false) ∧
      (set_amount st amount now).2 = st ∧
      (MIN_AMOUNT ≤ amount →
        dictGet (set_amount st amount now).1 "error" =
          some (.str ("Value error, Country must be one of: " ++
            String.intercalate ", " SUPPORTED_COUNTRIES))) := by
  intro st amount now
  unfold set_amount
  by_cases hmin : amount < MIN_AMOUNT
  · rw [if_pos hmin]
    exact ⟨rfl, rfl, fun h => absurd h (not_le.mpr hmin)⟩
  · rw [if_neg hmin]
    refine ⟨?_, ?_, fun _ => ?_⟩ <;> with_unfolding_all rfl

/-- C2: transfer_money never touches the History Store: the store is returned
unchanged on every path, including a fully valid transfer that reports
success — no TransactionHistoryRecord is ever appended, contradicting the
specified append and the tests that patch TransactionHistory inside the
tools module. -/
theorem transfer_money_never_appends :
    ∀ (st : PyDict) (hist : HistStore) (token bf bl c : String) (am : ℚ)
      (pm dm : String) (now : Int),
      (transfer_money st hist token bf bl c am pm dm now).2.2 = hist ∧
      dictGet (transfer_money st hist token "John" "Matthews" "Colombia" 100
        "credit_card" "digital_wallet" now).1 "success" = some (.bool true) := by
  intro st hist token bf bl c am pm dm now
  constructor
  · unfold transfer_money
    rcases mkBeneficiary bf bl with _ | b
    · rfl
    · dsimp only
      rcases mkTransaction b c am pm dm now with _ | t
      · rfl
      · rfl
  · with_unfolding_all rfl

/-- C5: a rejected transfer_money call leaves both the session state and the
history store unchanged; in particular a transfer to country "France" is
rejected with an error message mentioning the country, no session key is
written and no record is appended. -/
theorem rejected_transfer_mutates_nothing :
    ∀ (st : PyDict) (hist : HistStore) (token bf bl c : String) (am : ℚ)
      (pm dm : String) (now : Int),
      (dictGet (transfer_money st hist token bf bl c am pm dm now).1 "success" =
          some (.bool false) →
        (transfer_money st hist token bf bl c am pm dm now).2.1 = st ∧
        (transfer_money st hist token bf bl c am pm dm now).2.2 = hist) ∧
      (dictGet (transfer_money st hist token "John" "Doe" "France" 100
          "credit_card" "digital_wallet" now).1 "success" = some (.bool false) ∧
        (∃ e, dictGet (transfer_money st hist token "John" "Doe" "France" 100
            "credit_card" "digital_wallet" now).1 "error" = some (.str e) ∧
          strMentions (pyLowerS e) "country" = true) ∧
        (transfer_money st hist token "John" "Doe" "France" 100
          "credit_card" "digital_wallet" now).2.1 = st ∧
        (transfer_money st hist token "John" "Doe" "France" 100
          "credit_card" "digital_wallet" now).2.2 = hist) := by
  intro st hist token bf bl c am pm dm now
  constructor
  · intro hfail
    unfold transfer_money at hfail ⊢
    revert hfail
    rcases mkBeneficiary bf bl with _ | b
    · intro _
      exact ⟨rfl, rfl⟩
    · dsimp only
      rcases mkTransaction b c am pm dm now with _ | t
      · intro _
        exact ⟨rfl, rfl⟩
      · intro hfail
        simp [dictGet, List.lookup] at hfail
  · have hben : mkBeneficiary "John" "Doe" = .ok ⟨"John", "Doe"⟩ := rfl
    have htx : mkTransaction ⟨"John", "Doe"⟩ "France" 100 "credit_card"
        "digital_wallet" now = .error ("Value error, Country must be one of: " ++
          String.intercalate ", " SUPPORTED_COUNTRIES) := by
      unfold mkTransaction validateCountry
      rw [if_neg (by decide)]
      rfl
    unfold transfer_money
    rw [hben]
    dsimp only
    rw [htx]
    refine ⟨rfl, ⟨_, rfl, by decide⟩, rfl, rfl⟩

/-- C6: appending a TransactionHistoryRecord and then loading reproduces a
record equal to the one appended, field for field, the timestamp surviving
the ISO-8601 format/parse round trip exactly; previously stored records are
not reordered, overwritten, or deduplicated by the append. -/
theorem history_append_roundtrip :
    ∀ (store : HistStore) (prev : List TransactionHistoryRecord)
      (r : TransactionHistoryRecord),
      loadAux store = some prev →
      r.phone_number ≠ "" →
      r.beneficiary.firstname ≠ "" → r.beneficiary.lastname ≠ "" →
      decSearch r.amount ≠ none →
      pyTimeMin ≤ r.timestamp → r.timestamp ≤ pyTimeMax →
      load_all (add_transaction store r) = prev ++ [r] ∧ load_all store = prev := by
  intro store prev r hprev hph hf hl ham ht1 ht2
  have hrr := record_row_roundtrip r hf hl ham ht1 ht2
  have hphrow : (rowOfRecord r).phone_number.isEmpty = false := by
    show r.phone_number.isEmpty = false
    cases h : r.phone_number.isEmpty with
    | false => rfl
    | true => exact absurd ((String.isEmpty_iff r.phone_number).mp h) hph
  have happ := loadAux_append store prev (rowOfRecord r) r hrr hphrow hprev
  unfold load_all add_transaction
  rw [happ, hprev]
  exact ⟨rfl, rfl⟩

/- ---------------------------------------------------------------- -/
/- Witnesses                                                         -/
/- ---------------------------------------------------------------- -/

/-- Witness for C4: a transaction strictly older than the daily cutoff
contributes nothing. -/
theorem period_usage_window_witness :
    calculate_period_usage ([] ++ [⟨⟨"Ana", "Lopez"⟩, "México", 10, "credit_card",
        "digital_wallet", -200000, none⟩]) 0 "daily" =
      calculate_period_usage [] 0 "daily" :=
  period_usage_window.2.1 [] 0 "daily" 1
    ⟨⟨"Ana", "Lopez"⟩, "México", 10, "credit_card", "digital_wallet", -200000, none⟩
    rfl (by decide)

/-- Witness for C8 on a one-transaction history. -/
theorem period_usage_nested_witness :
    ∃ a b c : ℚ,
      calculate_period_usage [⟨⟨"Ana", "Lopez"⟩, "México", 10, "credit_card",
        "digital_wallet", 0, none⟩] 0 "daily" = .ok a ∧
      calculate_period_usage [⟨⟨"Ana", "Lopez"⟩, "México", 10, "credit_card",
        "digital_wallet", 0, none⟩] 0 "monthly" = .ok b ∧
      calculate_period_usage [⟨⟨"Ana", "Lopez"⟩, "México", 10, "credit_card",
        "digital_wallet", 0, none⟩] 0 "semester" = .ok c ∧ a ≤ b ∧ b ≤ c :=
  period_usage_nested [⟨⟨"Ana", "Lopez"⟩, "México", 10, "credit_card",
    "digital_wallet", 0, none⟩] 0 (by decide)

/-- Witness for C7: falsy firstname yields the empty result, truthy firstname
yields the filtered user history. -/
theorem beneficiary_history_filter_witness :
    find_beneficiary_history [] "+1" none none = [] ∧
    find_beneficiary_history [] "+1" (some "john") none =
      (get_user_transactions [] "+1").filter (benMatch "john" none) :=
  ⟨beneficiary_history_filter.2.2.1 [] "+1" none none rfl,
   beneficiary_history_filter.2.2.2.1 [] "+1" (some "john") none rfl⟩

/-- Witness for C9: "colombia" matches a supported country case-insensitively
and the tool reports success. -/
theorem set_country_canonicalizes_witness :
    dictGet (set_country [] "colombia").1 "success" = some (.bool true) :=
  ((set_country_canonicalizes.1 [] "colombia").1).mp ⟨"Colombia", by decide, by decide⟩

/-- Witness for C1: set_amount(150) rejects with the country-validation error
of its mojibake probe transaction. -/
theorem set_amount_never_succeeds_witness :
    dictGet (set_amount [] 150 0).1 "error" =
      some (.str ("Value error, Country must be one of: " ++
        String.intercalate ", " SUPPORTED_COUNTRIES)) :=
  (set_amount_never_succeeds [] 150 0).2.2 (by norm_num [MIN_AMOUNT])

/-- Witness for C5: the rejected France transfer leaves state and store
unchanged. -/
theorem rejected_transfer_mutates_nothing_witness :
    (transfer_money [] [] "a1b2c3d4" "John" "Doe" "France" 100 "credit_card"
      "digital_wallet" 0).2.1 = [] ∧
    (transfer_money [] [] "a1b2c3d4" "John" "Doe" "France" 100 "credit_card"
      "digital_wallet" 0).2.2 = [] :=
  (rejected_transfer_mutates_nothing [] [] "a1b2c3d4" "John" "Doe" "France" 100
    "credit_card" "digital_wallet" 0).1 (by with_unfolding_all rfl)

set_option maxRecDepth 100000 in
/-- Witness for C6: a concrete record round-trips through the store. -/
theorem history_append_roundtrip_witness :
    load_all (add_transaction [] ⟨"+1234567890", ⟨"John", "Matthews"⟩, "Colombia", 150,
        "credit_card", "digital_wallet", 1705314600, "TXN-001"⟩) =
      [] ++ [⟨"+1234567890", ⟨"John", "Matthews"⟩, "Colombia", 150,
        "credit_card", "digital_wallet", 1705314600, "TXN-001"⟩] ∧
    load_all [] = [] :=
  history_append_roundtrip [] [] ⟨"+1234567890", ⟨"John", "Matthews"⟩, "Colombia", 150,
      "credit_card", "digital_wallet", 1705314600, "TXN-001"⟩ rfl (by decide) (by decide)
    (by decide)
    (by rw [show decSearch (150 : ℚ) = some 0 from by with_unfolding_all rfl]; simp)
    (by decide) (by decide)
